import Mathlib

/-!
Shallow embedding of the `share_mem` repository: a fixed-capacity
single-producer/single-consumer ring buffer placed in shared memory, with two
platform backends.

* `src/shared_mem_posix.go` — the POSIX backend: `/tmp` file + `mmap`; its
  `Write` re-checks the fullness condition in a `for` loop.
* `src/unnamed/part_000` — the Windows backend: `CreateFileMapping` +
  `MapViewOfFile`; its `Write` checks fullness once with an `if`.

The ring state is embedded as a structure over `Nat`.  Index arithmetic in the
source is `uint64` arithmetic reduced `% 1024`; since `1024` divides `2 ^ 64`,
`((w + 1) % 2 ^ 64) % 1024 = (w + 1) % 1024`, so plain `Nat` arithmetic is
exact here.  Slot values are stored and loaded verbatim (no arithmetic), so
they are embedded as `Nat`.

Blocking: both backends busy-wait by calling `SpinWait`, which only reads the
monotonic clock and yields the CPU — it neither reads nor writes any ring
state.  A `for`-loop wait therefore never exits unless the *other* process
moves its cursor; in this single-process embedding (the adversarial schedule
in which the peer makes no progress during the wait) a `for`-loop wait is
embedded as `none`, and `SpinWait` itself as the identity on the ring state.
-/

namespace ShareMem

/-- `bufferSize = 1024`, the capacity constant shared by both backends
(`const bufferSize = 1024` in both files). -/
def bufferSize : Nat := 1024

namespace Posix

/-- The POSIX `SharedAtomicRingBuffer` struct (`src/shared_mem_posix.go`,
lines 20–24): `buffer [bufferSize]atomic.Uint64`, `writeIdx atomic.Uint64`,
`readIdx atomic.Uint64`.  The slot array is embedded as a total function on
`Nat`; only indices below `bufferSize` are ever used by the operations. -/
structure SharedAtomicRingBuffer where
  buffer : Nat → Nat
  writeIdx : Nat
  readIdx : Nat

/-- A freshly mapped segment: `mmap` of a just-`ftruncate`d `/tmp` file is
all zeros, so slots and both cursors start at `0`. -/
def emptyRB : SharedAtomicRingBuffer :=
  { buffer := fun _ => 0, writeIdx := 0, readIdx := 0 }

/-- The argument `Write` passes to `SpinWait` while the buffer is full
(`SpinWait(5 * time.Microsecond)`, line 69), in nanoseconds, for every
receiver state and every value: the call site is a literal, not read from any
configuration. -/
def writeSpinWaitArgNs (_rb : SharedAtomicRingBuffer) (_value : Nat) : Nat :=
  5 * 1000

/-- The argument `Read` passes to `SpinWait` while the buffer is empty
(`SpinWait(1 * time.Microsecond)`, line 82), in nanoseconds, for every
receiver state: again a literal at the call site. -/
def readSpinWaitArgNs (_rb : SharedAtomicRingBuffer) : Nat :=
  1 * 1000

/-- POSIX `Write` (`src/shared_mem_posix.go`, lines 64–75): load `writeIdx`,
compute `(writeIdx + 1) % bufferSize`, then `for nextWriteIdx == readIdx`
spin; once not full, store the value into `buffer[writeIdx]`, publish
`nextWriteIdx`, and return `true`.  With no concurrent reader progress the
`for` loop never exits, embedded as `none`; `some (b, rb')` is the returned
boolean and the post state. -/
def Write (rb : SharedAtomicRingBuffer) (value : Nat) :
    Option (Bool × SharedAtomicRingBuffer) :=
  let writeIdx := rb.writeIdx
  let nextWriteIdx := (writeIdx + 1) % bufferSize
  if nextWriteIdx = rb.readIdx then
    none
  else
    some (true,
      { rb with
        buffer := Function.update rb.buffer writeIdx value
        writeIdx := nextWriteIdx })

/-- POSIX `Read` (`src/shared_mem_posix.go`, lines 78–88): load `readIdx`,
`for readIdx == writeIdx` spin; once not empty, load `buffer[readIdx]`,
store `(readIdx + 1) % bufferSize` into `readIdx`, and return
`(value, true)`.  The empty wait is embedded as `none` as for `Write`. -/
def Read (rb : SharedAtomicRingBuffer) :
    Option (Nat × Bool × SharedAtomicRingBuffer) :=
  let readIdx := rb.readIdx
  if readIdx = rb.writeIdx then
    none
  else
    let value := rb.buffer readIdx
    some (value, true, { rb with readIdx := (readIdx + 1) % bufferSize })

/-- `unsafe.Sizeof(SharedAtomicRingBuffer{})` for the POSIX struct: `1024`
8-byte `atomic.Uint64` slots plus the two 8-byte cursors; every field is
8-byte sized and aligned, so there is no padding. -/
def sizeofSharedAtomicRingBuffer : Nat := bufferSize * 8 + 8 + 8

/-- Outcomes of the three system calls `NewSharedAtomicRingBuffer` performs
(`os.OpenFile`, `syscall.Ftruncate`, `syscall.Mmap`). -/
structure SyscallEnv where
  openOk : Bool
  ftruncateOk : Bool
  mmapOk : Bool

/-- Resource effects of one run of the POSIX `NewSharedAtomicRingBuffer`:
whether the `/tmp` backing file was created, whether `os.Remove` was called
on it, whether the deferred `file.Close()` ran, and whether a live `mmap`
view remains. -/
structure CreateEffects where
  fileCreated : Bool
  fileRemoved : Bool
  fileClosed : Bool
  mapped : Bool

/-- Errors returned by the two constructors, one per failing call site. -/
inductive CreateError where
  | openFailed
  | ftruncateFailed
  | mmapFailed
  deriving DecidableEq

/-- POSIX `NewSharedAtomicRingBuffer` (`src/shared_mem_posix.go`,
lines 27–53), as a function of the syscall outcomes. Control flow: `OpenFile`
failure returns an error at once (nothing acquired); `Ftruncate` failure runs
`os.Remove(shmPath)` then errors; `Mmap` failure runs `os.Remove(shmPath)`
then errors; on success the mapping stays live. The deferred `file.Close()`
runs on every path after a successful open. -/
def NewSharedAtomicRingBuffer (env : SyscallEnv) :
    Except CreateError Unit × CreateEffects :=
  if !env.openOk then
    (.error .openFailed,
     { fileCreated := false, fileRemoved := false, fileClosed := false,
       mapped := false })
  else if !env.ftruncateOk then
    (.error .ftruncateFailed,
     { fileCreated := true, fileRemoved := true, fileClosed := true,
       mapped := false })
  else if !env.mmapOk then
    (.error .mmapFailed,
     { fileCreated := true, fileRemoved := true, fileClosed := true,
       mapped := false })
  else
    (.ok (),
     { fileCreated := true, fileRemoved := false, fileClosed := true,
       mapped := true })

/-- The flags of the `os.OpenFile` call in `NewSharedAtomicRingBuffer`
(line 30): `os.O_RDWR | os.O_CREATE | os.O_TRUNC`. -/
inductive OpenFlag where
  | O_RDWR
  | O_CREATE
  | O_TRUNC
  deriving DecidableEq

/-- The literal flag list passed to `os.OpenFile` at line 30. -/
def openFileFlags : List OpenFlag := [.O_RDWR, .O_CREATE, .O_TRUNC]

/-- Contents (as a list of 8-byte words) of `/tmp/name` right after the
`os.OpenFile` call, given the contents it had before (`none` when the file
did not exist).  `O_CREATE` makes a missing file empty; `O_TRUNC` truncates
an existing file to length zero on open. -/
def openFileContents (existing : Option (List Nat)) : List Nat :=
  match existing with
  | none => []
  | some content =>
    if openFileFlags.contains .O_TRUNC then [] else content

/-- `syscall.Ftruncate` to `n` words: keep the first `n` words and pad with
zero-words up to length `n` (POSIX `ftruncate` zero-fills on extension). -/
def ftruncateContents (content : List Nat) (n : Nat) : List Nat :=
  content.take n ++ List.replicate (n - content.length) 0

/-- The word count of the POSIX segment: `sizeof / 8 = bufferSize + 2`. -/
def segmentWords : Nat := bufferSize + 2

/-- The region a process observes after `NewSharedAtomicRingBuffer` maps the
backing file whose prior contents were `existing`: open (create/truncate)
then `ftruncate` to the segment size, then `mmap` the file contents. -/
def createMappedRegion (existing : Option (List Nat)) : List Nat :=
  ftruncateContents (openFileContents existing) segmentWords

end Posix

namespace Windows

/-- The Windows `SharedAtomicRingBuffer` struct (`src/unnamed/part_000`,
lines 19–24): the same slot array and cursors as the POSIX struct plus an
extra field `addr uintptr` holding the mapping base address (8 bytes on
64-bit Windows). -/
structure SharedAtomicRingBuffer where
  buffer : Nat → Nat
  writeIdx : Nat
  readIdx : Nat
  addr : Nat

/-- `SpinWait(duration)` (`src/unnamed/part_000`, lines 62–67) only reads the
monotonic clock and calls `runtime.Gosched()`; it reads and writes no ring
state, so over the ring state it is the identity — this embeds the schedule
in which the consumer makes no progress during the wait. -/
def SpinWait (rb : SharedAtomicRingBuffer) (_durationNs : Nat) :
    SharedAtomicRingBuffer :=
  rb

/-- Windows `Write` (`src/unnamed/part_000`, lines 75–88): load `writeIdx`,
compute `nextWriteIdx`, then — unlike the POSIX backend — check fullness
ONCE with an `if`: when full it calls `SpinWait(5µs)` a single time and then
falls through to the store regardless.  The operation therefore always
completes, so it is embedded as a total function returning the `true` result
and the post state. -/
def Write (rb : SharedAtomicRingBuffer) (value : Nat) :
    Bool × SharedAtomicRingBuffer :=
  let writeIdx := rb.writeIdx
  let nextWriteIdx := (writeIdx + 1) % bufferSize
  let rb := if nextWriteIdx = rb.readIdx then SpinWait rb (5 * 1000) else rb
  (true,
   { rb with
     buffer := Function.update rb.buffer writeIdx value
     writeIdx := nextWriteIdx })

/-- Windows `Read` (`src/unnamed/part_000`, lines 91–103): identical loop
form to the POSIX `Read` (`for readIdx == writeIdx` spin), embedded the same
way: `none` while empty. -/
def Read (rb : SharedAtomicRingBuffer) :
    Option (Nat × Bool × SharedAtomicRingBuffer) :=
  let readIdx := rb.readIdx
  if readIdx = rb.writeIdx then
    none
  else
    let value := rb.buffer readIdx
    some (value, true, { rb with readIdx := (readIdx + 1) % bufferSize })

/-- The fullness condition of the Windows `Write` (line 80):
`(writeIdx + 1) % bufferSize == readIdx`. -/
def full (rb : SharedAtomicRingBuffer) : Bool :=
  (rb.writeIdx + 1) % bufferSize == rb.readIdx

/-- `unsafe.Sizeof(SharedAtomicRingBuffer{})` for the Windows struct: the
`1024` 8-byte slots, the two 8-byte cursors, and the extra 8-byte
`addr uintptr` field; all fields 8-byte sized and aligned, no padding. -/
def sizeofSharedAtomicRingBuffer : Nat := bufferSize * 8 + 8 + 8 + 8

/-- Outcomes of the two Windows API calls `NewSharedAtomicRingBuffer`
performs (`CreateFileMapping`, `MapViewOfFile`). -/
structure SyscallEnv where
  createFileMappingOk : Bool
  mapViewOfFileOk : Bool

/-- Resource effects of one run of the Windows `NewSharedAtomicRingBuffer`:
whether the paging-file-backed mapping handle was created, whether
`CloseHandle` was called on it, and whether a live view remains mapped. -/
structure CreateEffects where
  mappingHandleCreated : Bool
  mappingHandleClosed : Bool
  mapped : Bool

/-- Windows `NewSharedAtomicRingBuffer` (`src/unnamed/part_000`,
lines 27–59): `CreateFileMapping` failure returns an error at once;
`MapViewOfFile` failure runs `CloseHandle(fileMapping)` then errors;
on success the view stays mapped. -/
def NewSharedAtomicRingBuffer (env : SyscallEnv) :
    Except Posix.CreateError Unit × CreateEffects :=
  if !env.createFileMappingOk then
    (.error .openFailed,
     { mappingHandleCreated := false, mappingHandleClosed := false,
       mapped := false })
  else if !env.mapViewOfFileOk then
    (.error .mmapFailed,
     { mappingHandleCreated := true, mappingHandleClosed := true,
       mapped := false })
  else
    (.ok (),
     { mappingHandleCreated := true, mappingHandleClosed := false,
       mapped := true })

end Windows

/-- Whether a constructor result is the error variant (no handle). -/
def resultIsError : Except Posix.CreateError Unit → Bool
  | .error _ => true
  | .ok _ => false

namespace Posix

/-- Cursor well-formedness: both indices below the capacity.  Holds of a
freshly mapped (all-zero) segment and, as proved below, is preserved by every
operation. -/
def wf (rb : SharedAtomicRingBuffer) : Prop :=
  rb.writeIdx < bufferSize ∧ rb.readIdx < bufferSize

/-- Number of unread slots: the cyclic distance from `readIdx` up to
`writeIdx`. -/
def unreadLen (rb : SharedAtomicRingBuffer) : Nat :=
  (rb.writeIdx + bufferSize - rb.readIdx) % bufferSize

/-- The unread values in FIFO order: the slots from `readIdx` (inclusive) to
`writeIdx` (exclusive), modulo capacity. -/
def unread (rb : SharedAtomicRingBuffer) : List Nat :=
  (List.range (unreadLen rb)).map fun i => rb.buffer ((rb.readIdx + i) % bufferSize)

/-- One operation of the demo harness: the producer writes a value or the
consumer reads one. -/
inductive Op where
  | wr : Nat → Op
  | rd : Op

/-- One atomic operation on the segment: a write consumes no output, a read
produces the value it returns. -/
def stepOp (rb : SharedAtomicRingBuffer) : Op → Option (SharedAtomicRingBuffer × Option Nat)
  | .wr v => (Write rb v).map fun p => (p.2, none)
  | .rd => (Read rb).map fun p => (p.2.2, some p.1)

/-- Run a sequence of operations, collecting the values the consumer's
`Read` calls return, in order.  `none` when some operation blocks forever
(write while full / read while empty with no peer progress). -/
def runOps (rb : SharedAtomicRingBuffer) : List Op → Option (SharedAtomicRingBuffer × List Nat)
  | [] => some (rb, [])
  | op :: ops =>
    (stepOp rb op).bind fun p =>
      (runOps p.1 ops).map fun q => (q.1, p.2.toList ++ q.2)

/-- The values written by the producer over a sequence of operations, in
order. -/
def writesOf : List Op → List Nat
  | [] => []
  | .wr v :: ops => v :: writesOf ops
  | .rd :: ops => writesOf ops

/-- Write a list of values in order, one `Write` call each. -/
def writeMany (rb : SharedAtomicRingBuffer) : List Nat → Option SharedAtomicRingBuffer
  | [] => some rb
  | v :: vs => (Write rb v).bind fun p => writeMany p.2 vs

end Posix

namespace Windows

/-- Cursor well-formedness for the Windows backend, as for the POSIX one. -/
def wf (rb : SharedAtomicRingBuffer) : Prop :=
  rb.writeIdx < bufferSize ∧ rb.readIdx < bufferSize

/-- The argument the Windows `Write` passes to `SpinWait` when it sees the
buffer full (`SpinWait(5 * time.Microsecond)`, line 81), in nanoseconds: a
literal at the call site, the same for every state and value. -/
def writeSpinWaitArgNs (_rb : SharedAtomicRingBuffer) (_value : Nat) : Nat :=
  5 * 1000

/-- The argument the Windows `Read` passes to `SpinWait` while the buffer is
empty (`SpinWait(1 * time.Microsecond)`, line 96), in nanoseconds: again a
call-site literal. -/
def readSpinWaitArgNs (_rb : SharedAtomicRingBuffer) : Nat :=
  1 * 1000

end Windows

/-- A mid-way POSIX state: one value written, nothing read yet
(`writeIdx = 1`, `readIdx = 0`), on which both `Write` and `Read`
complete. -/
def midPosix : Posix.SharedAtomicRingBuffer :=
  { buffer := fun _ => 0, writeIdx := 1, readIdx := 0 }

/-- The corresponding mid-way Windows state. -/
def midWindows : Windows.SharedAtomicRingBuffer :=
  { buffer := fun _ => 0, writeIdx := 1, readIdx := 0, addr := 0 }

/-- A full POSIX state: `writeIdx = bufferSize - 1`, `readIdx = 0`, so the
fullness condition `(writeIdx + 1) % bufferSize == readIdx` holds and the
`bufferSize - 1` slots `0 … bufferSize - 2` are unread (slot `i` holds
`i + 1`). -/
def fullPosix : Posix.SharedAtomicRingBuffer :=
  { buffer := fun i => i + 1, writeIdx := bufferSize - 1, readIdx := 0 }

/-- The same full state on the Windows backend. -/
def fullWindows : Windows.SharedAtomicRingBuffer :=
  { buffer := fun i => i + 1, writeIdx := bufferSize - 1, readIdx := 0,
    addr := 0 }

namespace Posix

/-- A successful POSIX `Write` implies the fullness condition was false, the
returned boolean is `true`, and the post state is the stored-and-published
state. -/
theorem Write_some {rb : SharedAtomicRingBuffer} {v : Nat} {b : Bool}
    {rb' : SharedAtomicRingBuffer} (h : Write rb v = some (b, rb')) :
    (rb.writeIdx + 1) % bufferSize ≠ rb.readIdx ∧ b = true ∧
      rb' = { rb with
              buffer := Function.update rb.buffer rb.writeIdx v
              writeIdx := (rb.writeIdx + 1) % bufferSize } := by
  simp only [Write] at h
  split at h
  · exact absurd h (by simp)
  · next hne =>
    simp only [Option.some.injEq, Prod.mk.injEq] at h
    exact ⟨hne, h.1.symm, h.2.symm⟩

/-- POSIX `Write` blocks forever (with an idle consumer) exactly when the
fullness condition holds. -/
theorem Write_none_iff (rb : SharedAtomicRingBuffer) (v : Nat) :
    Write rb v = none ↔ (rb.writeIdx + 1) % bufferSize = rb.readIdx := by
  simp only [Write]
  split
  · next heq => simp [heq]
  · next hne => simp [hne]

/-- POSIX `Write` completes exactly when the fullness condition is false,
and then returns `true` and the stored-and-published state. -/
theorem Write_eq_some_of_not_full (rb : SharedAtomicRingBuffer) (v : Nat)
    (h : (rb.writeIdx + 1) % bufferSize ≠ rb.readIdx) :
    Write rb v = some (true,
      { rb with
        buffer := Function.update rb.buffer rb.writeIdx v
        writeIdx := (rb.writeIdx + 1) % bufferSize }) := by
  simp only [Write]
  simp [h]

/-- A successful POSIX `Read` implies the buffer was not empty, the value is
the slot at `readIdx`, the boolean is `true`, and only `readIdx` advanced. -/
theorem Read_some {rb : SharedAtomicRingBuffer} {x : Nat} {b : Bool}
    {rb' : SharedAtomicRingBuffer} (h : Read rb = some (x, b, rb')) :
    rb.readIdx ≠ rb.writeIdx ∧ x = rb.buffer rb.readIdx ∧ b = true ∧
      rb' = { rb with readIdx := (rb.readIdx + 1) % bufferSize } := by
  simp only [Read] at h
  split at h
  · exact absurd h (by simp)
  · next hne =>
    simp only [Option.some.injEq, Prod.mk.injEq] at h
    exact ⟨hne, h.1.symm, h.2.1.symm, h.2.2.symm⟩

/-- POSIX `Read` blocks forever (with an idle producer) exactly when the
buffer is empty. -/
theorem Read_none_iff (rb : SharedAtomicRingBuffer) :
    Read rb = none ↔ rb.readIdx = rb.writeIdx := by
  simp only [Read]
  split
  · next heq => simp [heq]
  · next hne => simp [hne]

/-- POSIX `Read` completes exactly when the buffer is not empty. -/
theorem Read_eq_some_of_ne (rb : SharedAtomicRingBuffer)
    (h : rb.readIdx ≠ rb.writeIdx) :
    Read rb = some (rb.buffer rb.readIdx, true,
      { rb with readIdx := (rb.readIdx + 1) % bufferSize }) := by
  simp only [Read]
  simp [h]

/-- For well-formed cursors, the fullness condition says exactly that
`bufferSize - 1` slots are unread. -/
theorem full_iff_unreadLen (rb : SharedAtomicRingBuffer) (hwf : wf rb) :
    (rb.writeIdx + 1) % bufferSize = rb.readIdx ↔
      unreadLen rb = bufferSize - 1 := by
  obtain ⟨hw, hr⟩ := hwf
  simp only [unreadLen, bufferSize] at *
  omega

/-- For well-formed cursors, the emptiness condition says exactly that no
slot is unread. -/
theorem empty_iff_unreadLen (rb : SharedAtomicRingBuffer) (hwf : wf rb) :
    rb.readIdx = rb.writeIdx ↔ unreadLen rb = 0 := by
  obtain ⟨hw, hr⟩ := hwf
  simp only [unreadLen, bufferSize] at *
  omega

/-- Full functional specification of a completed POSIX `Write` on a
well-formed state: well-formedness is preserved, `readIdx` and all other
slots are untouched, and the unread queue gains `v` at its back. -/
theorem Write_spec {rb : SharedAtomicRingBuffer} {v : Nat} {b : Bool}
    {rb' : SharedAtomicRingBuffer} (hwf : wf rb)
    (h : Write rb v = some (b, rb')) :
    wf rb' ∧ b = true ∧ rb'.readIdx = rb.readIdx ∧
      unreadLen rb' = unreadLen rb + 1 ∧ unread rb' = unread rb ++ [v] := by
  obtain ⟨hnf, hb, hrb'⟩ := Write_some h
  obtain ⟨hw, hr⟩ := hwf
  subst hrb'
  have hlen : unreadLen
      { rb with
        buffer := Function.update rb.buffer rb.writeIdx v
        writeIdx := (rb.writeIdx + 1) % bufferSize } = unreadLen rb + 1 := by
    simp only [unreadLen, bufferSize] at *
    omega
  refine ⟨⟨?_, hr⟩, hb, rfl, hlen, ?_⟩
  · simp only [bufferSize] at *
    omega
  · have hn : unreadLen rb < bufferSize - 1 := by
      simp only [unreadLen, bufferSize] at *
      omega
    simp only [unread, hlen, List.range_succ, List.map_append, List.map_cons,
      List.map_nil]
    congr 1
    · refine List.map_congr_left fun i hi => ?_
      rw [List.mem_range] at hi
      refine Function.update_noteq ?_ v rb.buffer
      simp only [unreadLen, bufferSize] at *
      omega
    · have hito : (rb.readIdx + unreadLen rb) % bufferSize = rb.writeIdx := by
        simp only [unreadLen, bufferSize] at *
        omega
      have hupd : Function.update rb.buffer rb.writeIdx v
          ((rb.readIdx + unreadLen rb) % bufferSize) = v := by
        rw [hito]
        exact Function.update_same _ _ _
      simp only [List.map_cons, List.map_nil, hupd]

/-- Full functional specification of a completed POSIX `Read` on a
well-formed state: well-formedness is preserved, `writeIdx` and the whole
slot array are untouched, and the value returned is the front of the unread
queue. -/
theorem Read_spec {rb : SharedAtomicRingBuffer} {x : Nat} {b : Bool}
    {rb' : SharedAtomicRingBuffer} (hwf : wf rb)
    (h : Read rb = some (x, b, rb')) :
    wf rb' ∧ b = true ∧ rb'.writeIdx = rb.writeIdx ∧ rb'.buffer = rb.buffer ∧
      unreadLen rb = unreadLen rb' + 1 ∧ unread rb = x :: unread rb' := by
  obtain ⟨hne, hx, hb, hrb'⟩ := Read_some h
  obtain ⟨hw, hr⟩ := hwf
  subst hrb'
  have hlen : unreadLen rb =
      unreadLen { rb with readIdx := (rb.readIdx + 1) % bufferSize } + 1 := by
    simp only [unreadLen, bufferSize] at *
    omega
  refine ⟨⟨hw, ?_⟩, hb, rfl, rfl, hlen, ?_⟩
  · simp only [bufferSize] at *
    omega
  · simp only [unread, hlen, List.range_succ_eq_map, List.map_cons,
    List.map_map]
    congr 1
    · rw [hx, Nat.add_zero, Nat.mod_eq_of_lt hr]
    · refine List.map_congr_left fun i hi => ?_
      simp only [Function.comp_apply]
      congr 1
      rw [Nat.mod_add_mod]
      congr 1
      omega

/-- Inversion for a producer step: a completed write step produced no
output and came from a completed `Write` call. -/
theorem stepOp_wr_some {rb : SharedAtomicRingBuffer} {v : Nat}
    {p : SharedAtomicRingBuffer × Option Nat}
    (h : stepOp rb (.wr v) = some p) :
    Write rb v = some (true, p.1) ∧ p.2 = none := by
  simp only [stepOp, Option.map_eq_some'] at h
  obtain ⟨a, hw, hp⟩ := h
  obtain ⟨b, s⟩ := a
  obtain ⟨-, hb, -⟩ := Write_some hw
  subst hb
  rw [← hp]
  exact ⟨hw, rfl⟩

/-- Inversion for a consumer step: a completed read step emitted exactly the
value a completed `Read` call returned. -/
theorem stepOp_rd_some {rb : SharedAtomicRingBuffer}
    {p : SharedAtomicRingBuffer × Option Nat} (h : stepOp rb .rd = some p) :
    ∃ x, Read rb = some (x, true, p.1) ∧ p.2 = some x := by
  simp only [stepOp, Option.map_eq_some'] at h
  obtain ⟨a, hr, hp⟩ := h
  obtain ⟨x, b, s⟩ := a
  obtain ⟨-, -, hb, -⟩ := Read_some hr
  subst hb
  refine ⟨x, ?_, ?_⟩
  · rw [← hp]
    exact hr
  · rw [← hp]

/-- The trace invariant: running any completed sequence of operations turns
the unread queue over exactly as a FIFO queue — the reads observed plus what
is still unread equals what was unread at the start plus everything
written. -/
theorem runOps_spec (ops : List Op) (rb : SharedAtomicRingBuffer)
    (hwf : wf rb) (t : SharedAtomicRingBuffer) (outs : List Nat)
    (h : runOps rb ops = some (t, outs)) :
    wf t ∧ outs ++ unread t = unread rb ++ writesOf ops := by
  induction ops generalizing rb outs with
  | nil =>
    simp only [runOps, Option.some.injEq, Prod.mk.injEq] at h
    obtain ⟨ht, houts⟩ := h
    subst ht
    subst houts
    exact ⟨hwf, by simp [writesOf]⟩
  | cons op ops ih =>
    cases hstep : stepOp rb op with
    | none => simp [runOps, hstep] at h
    | some p =>
      cases hrun : runOps p.1 ops with
      | none => simp [runOps, hstep, hrun] at h
      | some q =>
        simp only [runOps, hstep, hrun, Option.some_bind, Option.map_some',
          Option.some.injEq, Prod.mk.injEq] at h
        obtain ⟨ht, houts⟩ := h
        have hrun' : runOps p.1 ops = some (t, q.2) := by
          rw [hrun, ← ht]
        cases op with
        | wr v =>
          obtain ⟨hw, hout⟩ := stepOp_wr_some hstep
          obtain ⟨hwf₁, -, -, -, hq⟩ := Write_spec hwf hw
          obtain ⟨hwt, hinv⟩ := ih p.1 hwf₁ q.2 hrun'
          refine ⟨hwt, ?_⟩
          rw [← houts, hout]
          simp only [Option.toList_none, List.nil_append, writesOf]
          rw [hinv, hq]
          simp
        | rd =>
          obtain ⟨x, hrd, hout⟩ := stepOp_rd_some hstep
          obtain ⟨hwf₁, -, -, -, -, hq⟩ := Read_spec hwf hrd
          obtain ⟨hwt, hinv⟩ := ih p.1 hwf₁ q.2 hrun'
          refine ⟨hwt, ?_⟩
          rw [← houts, hout, hq]
          simp only [Option.toList_some, writesOf, List.cons_append,
            List.nil_append]
          exact congrArg (List.cons x) hinv

/-- Writing a list of values one `Write` call at a time succeeds as long as
the buffer never gets full, preserves well-formedness and `readIdx`, and
grows the unread count by the number of values written. -/
theorem writeMany_spec (vs : List Nat) (rb : SharedAtomicRingBuffer)
    (hwf : wf rb) (hroom : unreadLen rb + vs.length ≤ bufferSize - 1) :
    ∃ rb', writeMany rb vs = some rb' ∧ wf rb' ∧
      unreadLen rb' = unreadLen rb + vs.length ∧ rb'.readIdx = rb.readIdx := by
  induction vs generalizing rb with
  | nil => exact ⟨rb, rfl, hwf, by simp [writeMany], rfl⟩
  | cons v vs ih =>
    have hnotfull : (rb.writeIdx + 1) % bufferSize ≠ rb.readIdx := by
      intro hfull
      rw [full_iff_unreadLen rb hwf] at hfull
      simp only [List.length_cons] at hroom
      omega
    have hw := Write_eq_some_of_not_full rb v hnotfull
    obtain ⟨hwf₁, -, hread, hulen, -⟩ := Write_spec hwf hw
    obtain ⟨rb', hmany, hwf', hulen', hread'⟩ := ih _ hwf₁ (by
      rw [hulen]
      simp only [List.length_cons] at hroom
      omega)
    refine ⟨rb', ?_, hwf', ?_, ?_⟩
    · simp only [writeMany, hw, Option.some_bind]
      exact hmany
    · rw [hulen', hulen]
      simp only [List.length_cons]
      omega
    · rw [hread', hread]

end Posix

namespace Windows

/-- The Windows `Write` always completes, returning `true` and the
stored-and-published state — whether or not the buffer was full, because the
single `if`-guarded `SpinWait` leaves the ring state unchanged and control
falls through to the store. -/
theorem Write_eq (rb : SharedAtomicRingBuffer) (v : Nat) :
    Write rb v = (true,
      { rb with
        buffer := Function.update rb.buffer rb.writeIdx v
        writeIdx := (rb.writeIdx + 1) % bufferSize }) := by
  simp [Write, SpinWait]

/-- A successful Windows `Read` implies the buffer was not empty, the value
is the slot at `readIdx`, the boolean is `true`, and only `readIdx`
advanced — same loop form as the POSIX `Read`. -/
theorem winRead_some {rb : SharedAtomicRingBuffer} {x : Nat} {b : Bool}
    {rb' : SharedAtomicRingBuffer} (h : Read rb = some (x, b, rb')) :
    rb.readIdx ≠ rb.writeIdx ∧ x = rb.buffer rb.readIdx ∧ b = true ∧
      rb' = { rb with readIdx := (rb.readIdx + 1) % bufferSize } := by
  simp only [Read] at h
  split at h
  · exact absurd h (by simp)
  · next hne =>
    simp only [Option.some.injEq, Prod.mk.injEq] at h
    exact ⟨hne, h.1.symm, h.2.1.symm, h.2.2.symm⟩

end Windows

/-- Claim C1 (the code violates it): the claim requires `Write`'s fullness
check to be an unconditional loop in every backend, never storing while
`(writeIndex + 1) % capacity == readIndex`.  The POSIX backend satisfies
this (its `Write` blocks on the full state, last conjunct), but the Windows
backend checks fullness once with an `if` and stores regardless: at the
concrete full state `fullWindows`, with the consumer idle during the single
5 µs spin, its `Write` completes while the fullness condition holds and
publishes `writeIdx = readIdx`, making the 1023 unread values look like an
empty buffer. -/
theorem c1_windows_write_stores_while_full :
    Windows.full fullWindows = true
    ∧ Windows.Write fullWindows 42
        = (true,
           { fullWindows with
             buffer := Function.update fullWindows.buffer (bufferSize - 1) 42
             writeIdx := fullWindows.readIdx })
    ∧ (Windows.Write fullWindows 42).2.writeIdx
        = (Windows.Write fullWindows 42).2.readIdx
    ∧ Posix.Write fullPosix 42 = none :=
  ⟨by decide, rfl, rfl, rfl⟩

/-- Claim C2: FIFO — for every completed sequence of producer `Write`s and
consumer `Read`s starting from a fresh (all-zero) segment, the values the
successive `Read` calls return are exactly the values written, in order (the
k-th read returns the k-th written value): no duplication, no loss, no
reordering. -/
theorem c2_fifo_order (ops : List Posix.Op) (t : Posix.SharedAtomicRingBuffer)
    (outs : List Nat) (h : Posix.runOps Posix.emptyRB ops = some (t, outs)) :
    outs = (Posix.writesOf ops).take outs.length := by
  have hwf : Posix.wf Posix.emptyRB := ⟨by decide, by decide⟩
  obtain ⟨-, hinv⟩ := Posix.runOps_spec ops Posix.emptyRB hwf t outs h
  have hempty : Posix.unread Posix.emptyRB = [] := rfl
  rw [hempty, List.nil_append] at hinv
  rw [← hinv]
  exact (List.take_left outs (Posix.unread t)).symm

/-- Witness for C2: on an otherwise-empty segment, `Write 42` followed by
one `Read` completes and the read returns exactly `42` (round-trip). -/
theorem c2_fifo_order_witness :
    Posix.runOps Posix.emptyRB [Posix.Op.wr 42, Posix.Op.rd]
      = some ({ buffer := Function.update (fun _ => 0) 0 42,
                writeIdx := 1, readIdx := 1 }, [42])
    ∧ [42] = (Posix.writesOf [Posix.Op.wr 42, Posix.Op.rd]).take [42].length :=
  ⟨rfl,
   c2_fifo_order [Posix.Op.wr 42, Posix.Op.rd]
     { buffer := Function.update (fun _ => 0) 0 42, writeIdx := 1,
       readIdx := 1 }
     [42] rfl⟩

/-- Claim C3 counterexample: the two backends do NOT request the same
segment size, and the Windows size is not `capacity * 8 + 16` — the Windows
struct carries an extra 8-byte `addr uintptr` field, so its `unsafe.Sizeof`
is `8216` bytes where the POSIX backend requests `8208`. -/
theorem c3_sizes_differ :
    Windows.sizeofSharedAtomicRingBuffer ≠ bufferSize * 8 + 16
    ∧ Windows.sizeofSharedAtomicRingBuffer
        ≠ Posix.sizeofSharedAtomicRingBuffer := by
  decide

/-- Claim C3 as amended: the POSIX backend requests exactly
`capacity * 8 + 16` bytes, but the Windows backend requests
`capacity * 8 + 24` bytes because its struct embeds the extra 8-byte `addr`
field, so the two backends differ by 8 bytes. -/
theorem c3_segment_sizes :
    Posix.sizeofSharedAtomicRingBuffer = bufferSize * 8 + 16
    ∧ Windows.sizeofSharedAtomicRingBuffer = bufferSize * 8 + 24 := by
  decide

/-- Claim C4: in both backends every completed operation advances its cursor
by storing `(index + 1) % capacity` and leaves the other cursor alone, so
from any state with both cursors below `capacity`, both cursors stay below
`capacity` after every `Write` and every `Read`. -/
theorem c4_cursor_range_preserved (p : Posix.SharedAtomicRingBuffer)
    (w : Windows.SharedAtomicRingBuffer) (v : Nat) (hp : Posix.wf p)
    (hw : Windows.wf w) :
    (∀ b p', Posix.Write p v = some (b, p') → Posix.wf p')
    ∧ (∀ x b p', Posix.Read p = some (x, b, p') → Posix.wf p')
    ∧ Windows.wf (Windows.Write w v).2
    ∧ (∀ x b w', Windows.Read w = some (x, b, w') → Windows.wf w') := by
  have hpos : 0 < bufferSize := by decide
  refine ⟨?_, ?_, ?_, ?_⟩
  · intro b p' h
    obtain ⟨-, -, hp'⟩ := Posix.Write_some h
    subst hp'
    exact ⟨Nat.mod_lt _ hpos, hp.2⟩
  · intro x b p' h
    obtain ⟨-, -, -, hp'⟩ := Posix.Read_some h
    subst hp'
    exact ⟨hp.1, Nat.mod_lt _ hpos⟩
  · rw [Windows.Write_eq]
    exact ⟨Nat.mod_lt _ hpos, hw.2⟩
  · intro x b w' h
    obtain ⟨-, -, -, hw'⟩ := Windows.winRead_some h
    subst hw'
    exact ⟨hw.1, Nat.mod_lt _ hpos⟩

/-- Witness for C4: at the mid-way state (`writeIdx = 1`, `readIdx = 0`)
the well-formedness hypotheses hold, a concrete POSIX `Write` completes, and
the Windows `Write` lands on in-range cursors. -/
theorem c4_cursor_range_witness :
    (∀ b p', Posix.Write midPosix 42 = some (b, p') → Posix.wf p')
    ∧ Posix.Write midPosix 42 = some (true,
        { buffer := Function.update (fun _ => 0) 1 42,
          writeIdx := 2 % bufferSize, readIdx := 0 })
    ∧ Windows.wf (Windows.Write midWindows 42).2 :=
  ⟨(c4_cursor_range_preserved midPosix midWindows 42 ⟨by decide, by decide⟩
      ⟨by decide, by decide⟩).1,
   rfl,
   (c4_cursor_range_preserved midPosix midWindows 42 ⟨by decide, by decide⟩
      ⟨by decide, by decide⟩).2.2.1⟩

/-- Claim C5: from an empty segment, writing `bufferSize - 1` values
succeeds without blocking and fills the segment — the fullness condition
`(writeIdx + 1) % bufferSize = readIdx` then holds and every further
`Write` blocks; one `Read` completes and unblocks exactly one subsequent
`Write`, after which the segment is full again and `Write` blocks anew. -/
theorem c5_capacity_boundary (vs : List Nat)
    (hlen : vs.length = bufferSize - 1) :
    ∃ s, Posix.writeMany Posix.emptyRB vs = some s
      ∧ (s.writeIdx + 1) % bufferSize = s.readIdx
      ∧ (∀ v, Posix.Write s v = none)
      ∧ ∃ x b t, Posix.Read s = some (x, b, t)
        ∧ ∀ v, ∃ b' u, Posix.Write t v = some (b', u)
          ∧ ∀ z, Posix.Write u z = none := by
  have hwf0 : Posix.wf Posix.emptyRB := ⟨by decide, by decide⟩
  have hu0 : Posix.unreadLen Posix.emptyRB = 0 := rfl
  obtain ⟨s, hmany, hwfs, hus, -⟩ := Posix.writeMany_spec vs Posix.emptyRB
    hwf0 (by rw [hu0, hlen]; omega)
  have husl : Posix.unreadLen s = bufferSize - 1 := by
    rw [hus, hu0, hlen]
    omega
  have hfull : (s.writeIdx + 1) % bufferSize = s.readIdx :=
    (Posix.full_iff_unreadLen s hwfs).mpr husl
  refine ⟨s, hmany, hfull, fun v => (Posix.Write_none_iff s v).mpr hfull, ?_⟩
  have hne : s.readIdx ≠ s.writeIdx := by
    intro he
    rw [Posix.empty_iff_unreadLen s hwfs] at he
    rw [husl] at he
    simp [bufferSize] at he
  have hrd := Posix.Read_eq_some_of_ne s hne
  obtain ⟨hwft, -, -, -, hlen2, -⟩ := Posix.Read_spec hwfs hrd
  refine ⟨_, _, _, hrd, fun v => ?_⟩
  have hnt : ({ s with readIdx := (s.readIdx + 1) % bufferSize
              : Posix.SharedAtomicRingBuffer }.writeIdx + 1) % bufferSize
      ≠ { s with readIdx := (s.readIdx + 1) % bufferSize
          : Posix.SharedAtomicRingBuffer }.readIdx := by
    intro hf
    rw [Posix.full_iff_unreadLen _ hwft] at hf
    simp only [bufferSize] at husl hlen2 hf
    omega
  have hw2 := Posix.Write_eq_some_of_not_full _ v hnt
  obtain ⟨hwfu, -, -, hulenu, -⟩ := Posix.Write_spec hwft hw2
  exact ⟨true, _, hw2, fun z => (Posix.Write_none_iff _ z).mpr
    ((Posix.full_iff_unreadLen _ hwfu).mpr (by
      simp only [bufferSize] at husl hlen2 hulenu ⊢
      omega))⟩

/-- Witness for C5: the concrete sequence of `bufferSize - 1 = 1023` writes
of the value `7` satisfies the length hypothesis, so the capacity-boundary
behaviour holds for it. -/
theorem c5_capacity_boundary_witness :
    (List.replicate (bufferSize - 1) 7).length = bufferSize - 1
    ∧ ∃ s, Posix.writeMany Posix.emptyRB (List.replicate (bufferSize - 1) 7)
        = some s
      ∧ (s.writeIdx + 1) % bufferSize = s.readIdx
      ∧ (∀ v, Posix.Write s v = none)
      ∧ ∃ x b t, Posix.Read s = some (x, b, t)
        ∧ ∀ v, ∃ b' u, Posix.Write t v = some (b', u)
          ∧ ∀ z, Posix.Write u z = none :=
  ⟨by simp, c5_capacity_boundary (List.replicate (bufferSize - 1) 7)
    (by simp)⟩

/-- Claim C6: in both backends, when creating, resizing, or mapping the
backing region fails, `NewSharedAtomicRingBuffer` returns an error rather
than a handle, and on every such error path the partially acquired resources
are released: no view is left mapped, a created `/tmp` file is removed
(POSIX), and a created mapping handle is closed (Windows). -/
theorem c6_create_error_releases (e : Posix.SyscallEnv)
    (w : Windows.SyscallEnv) :
    (resultIsError (Posix.NewSharedAtomicRingBuffer e).1 = true →
      (Posix.NewSharedAtomicRingBuffer e).2.mapped = false
      ∧ ((Posix.NewSharedAtomicRingBuffer e).2.fileCreated = true →
          (Posix.NewSharedAtomicRingBuffer e).2.fileRemoved = true))
    ∧ (resultIsError (Windows.NewSharedAtomicRingBuffer w).1 = true →
      (Windows.NewSharedAtomicRingBuffer w).2.mapped = false
      ∧ ((Windows.NewSharedAtomicRingBuffer w).2.mappingHandleCreated = true →
          (Windows.NewSharedAtomicRingBuffer w).2.mappingHandleClosed
            = true)) := by
  obtain ⟨o, f, m⟩ := e
  obtain ⟨c, mv⟩ := w
  cases o <;> cases f <;> cases m <;> cases c <;> cases mv <;> decide

/-- Witness for C6: with `Ftruncate` failing on POSIX and `MapViewOfFile`
failing on Windows, both constructors error out, leave nothing mapped, and
release what they acquired. -/
theorem c6_create_error_releases_witness :
    ((Posix.NewSharedAtomicRingBuffer ⟨true, false, true⟩).2.mapped = false
      ∧ ((Posix.NewSharedAtomicRingBuffer ⟨true, false, true⟩).2.fileCreated
            = true →
          (Posix.NewSharedAtomicRingBuffer ⟨true, false, true⟩).2.fileRemoved
            = true))
    ∧ ((Windows.NewSharedAtomicRingBuffer ⟨true, false⟩).2.mapped = false
      ∧ ((Windows.NewSharedAtomicRingBuffer
            ⟨true, false⟩).2.mappingHandleCreated = true →
          (Windows.NewSharedAtomicRingBuffer
            ⟨true, false⟩).2.mappingHandleClosed = true)) :=
  ⟨(c6_create_error_releases ⟨true, false, true⟩ ⟨true, false⟩).1 (by decide),
   (c6_create_error_releases ⟨true, false, true⟩ ⟨true, false⟩).2 (by decide)⟩

/-- Claim C7: neither `Write` nor `Read` has an error channel — whenever a
`Write` completes it returns `true`, and whenever a `Read` completes it
returns its value paired with `true`; there is no failure result (the only
alternative, captured by `none` in this embedding, is spinning forever). -/
theorem c7_no_error_channel (p : Posix.SharedAtomicRingBuffer)
    (w : Windows.SharedAtomicRingBuffer) (v : Nat) :
    (∀ b p', Posix.Write p v = some (b, p') → b = true)
    ∧ (∀ x b p', Posix.Read p = some (x, b, p') → b = true)
    ∧ (Windows.Write w v).1 = true
    ∧ (∀ x b w', Windows.Read w = some (x, b, w') → b = true) := by
  refine ⟨?_, ?_, ?_, ?_⟩
  · intro b p' h
    exact (Posix.Write_some h).2.1
  · intro x b p' h
    exact (Posix.Read_some h).2.2.1
  · rw [Windows.Write_eq]
  · intro x b w' h
    exact (Windows.winRead_some h).2.2.1

/-- Witness for C7: at the mid-way state both POSIX operations complete with
success results, and the Windows `Write` returns `true`. -/
theorem c7_no_error_channel_witness :
    (∀ b p', Posix.Write midPosix 42 = some (b, p') → b = true)
    ∧ Posix.Write midPosix 42 = some (true,
        { buffer := Function.update (fun _ => 0) 1 42,
          writeIdx := 2 % bufferSize, readIdx := 0 })
    ∧ (∀ x b p', Posix.Read midPosix = some (x, b, p') → b = true)
    ∧ Posix.Read midPosix = some (0, true,
        { buffer := fun _ => 0, writeIdx := 1, readIdx := 1 % bufferSize })
    ∧ (Windows.Write midWindows 42).1 = true :=
  ⟨(c7_no_error_channel midPosix midWindows 42).1, rfl,
   (c7_no_error_channel midPosix midWindows 42).2.1, rfl,
   (c7_no_error_channel midPosix midWindows 42).2.2.1⟩

/-- Claim C8 counterexample: the spin durations are not exposed
configuration — each `SpinWait` call site passes the same literal no matter
what the ring state or the value being written is (5 µs in `Write`, 1 µs in
`Read`, in both backends): they are hardcoded constants, not tunable
parameters. -/
theorem c8_spin_durations_hardcoded :
    Posix.writeSpinWaitArgNs Posix.emptyRB 0 = 5000
    ∧ Posix.writeSpinWaitArgNs fullPosix 999 = 5000
    ∧ Posix.readSpinWaitArgNs Posix.emptyRB = 1000
    ∧ Posix.readSpinWaitArgNs fullPosix = 1000
    ∧ Windows.writeSpinWaitArgNs fullWindows 3 = 5000
    ∧ Windows.readSpinWaitArgNs midWindows = 1000 := by
  decide

/-- Claim C8 as amended: both backends use fixed, hardcoded spin durations —
5 µs for the full-wait in `Write` and 1 µs for the empty-wait in `Read`,
identical across backends — and the full-wait is strictly longer than the
empty-wait; the durations are not exposed as configuration. -/
theorem c8_spin_durations_ordered (p : Posix.SharedAtomicRingBuffer)
    (w : Windows.SharedAtomicRingBuffer) (v : Nat) :
    Posix.readSpinWaitArgNs p < Posix.writeSpinWaitArgNs p v
    ∧ Windows.readSpinWaitArgNs w < Windows.writeSpinWaitArgNs w v
    ∧ Posix.writeSpinWaitArgNs p v = Windows.writeSpinWaitArgNs w v
    ∧ Posix.readSpinWaitArgNs p = Windows.readSpinWaitArgNs w := by
  refine ⟨?_, ?_, rfl, rfl⟩
  · show (1 * 1000 : Nat) < 5 * 1000
    decide
  · show (1 * 1000 : Nat) < 5 * 1000
    decide

/-- Claim C9 counterexample: on the POSIX (durable-file) backend a Create
over an existing backing file holding stale data observes all zeros, not the
stale data — `os.OpenFile` is called with `O_TRUNC`, which empties the
existing file before it is resized and mapped. -/
theorem c9_create_truncates_stale :
    Posix.createMappedRegion (some [7, 8, 9])
      = List.replicate Posix.segmentWords 0
    ∧ (Posix.createMappedRegion (some [7, 8, 9])).take 3 ≠ [7, 8, 9] := by
  have h0 : Posix.createMappedRegion (some [7, 8, 9])
      = List.replicate Posix.segmentWords 0 := by
    show Posix.ftruncateContents (Posix.openFileContents (some [7, 8, 9]))
      Posix.segmentWords = _
    rw [show Posix.openFileContents (some [7, 8, 9]) = [] from rfl]
    simp [Posix.ftruncateContents]
  refine ⟨h0, ?_⟩
  rw [h0]
  decide

/-- Claim C9 as amended: because the POSIX backend opens the backing file
with `O_TRUNC` and then `ftruncate`s it to the segment size, creation
zero-initializes the region on EVERY call, not only the first: whatever
stale contents the persisting file had, a subsequent Create observes an
all-zero region (only the durable file name itself persists until
removed). -/
theorem c9_create_zeroes_region (stale : List Nat) :
    Posix.createMappedRegion (some stale)
      = List.replicate Posix.segmentWords 0 := by
  show Posix.ftruncateContents (Posix.openFileContents (some stale))
    Posix.segmentWords = _
  rw [show Posix.openFileContents (some stale) = [] from rfl]
  simp [Posix.ftruncateContents]

/-- Claim C10: frame conditions — a completed POSIX `Write` changes only
`slots[writeIdx]` and `writeIdx` (leaving `readIdx` and every other slot
unchanged); a completed POSIX `Read` changes only `readIdx` (leaving
`writeIdx` and the whole slot array unchanged); and the Windows `Write`
(once it stores) has the same frame as the POSIX one. -/
theorem c10_frame_conditions (p : Posix.SharedAtomicRingBuffer)
    (w : Windows.SharedAtomicRingBuffer) (v : Nat) :
    (∀ b p', Posix.Write p v = some (b, p') →
      p'.readIdx = p.readIdx
      ∧ p'.writeIdx = (p.writeIdx + 1) % bufferSize
      ∧ p'.buffer p.writeIdx = v
      ∧ ∀ i, i ≠ p.writeIdx → p'.buffer i = p.buffer i)
    ∧ (∀ x b p', Posix.Read p = some (x, b, p') →
      p'.writeIdx = p.writeIdx
      ∧ p'.buffer = p.buffer
      ∧ p'.readIdx = (p.readIdx + 1) % bufferSize)
    ∧ ((Windows.Write w v).2.readIdx = w.readIdx
      ∧ (Windows.Write w v).2.writeIdx = (w.writeIdx + 1) % bufferSize
      ∧ (Windows.Write w v).2.buffer w.writeIdx = v
      ∧ ∀ i, i ≠ w.writeIdx → (Windows.Write w v).2.buffer i = w.buffer i)
      := by
  refine ⟨?_, ?_, ?_⟩
  · intro b p' h
    obtain ⟨-, -, hp'⟩ := Posix.Write_some h
    subst hp'
    exact ⟨rfl, rfl, Function.update_same _ _ _,
      fun i hi => Function.update_noteq hi _ _⟩
  · intro x b p' h
    obtain ⟨-, -, -, hp'⟩ := Posix.Read_some h
    subst hp'
    exact ⟨rfl, rfl, rfl⟩
  · rw [Windows.Write_eq]
    exact ⟨rfl, rfl, Function.update_same _ _ _,
      fun i hi => Function.update_noteq hi _ _⟩

/-- Witness for C10: at the mid-way state a concrete POSIX `Write` and
`Read` both complete, so the frame conditions apply to them. -/
theorem c10_frame_conditions_witness :
    (∀ b p', Posix.Write midPosix 42 = some (b, p') →
      p'.readIdx = midPosix.readIdx
      ∧ p'.writeIdx = (midPosix.writeIdx + 1) % bufferSize
      ∧ p'.buffer midPosix.writeIdx = 42
      ∧ ∀ i, i ≠ midPosix.writeIdx → p'.buffer i = midPosix.buffer i)
    ∧ Posix.Write midPosix 42 = some (true,
        { buffer := Function.update (fun _ => 0) 1 42,
          writeIdx := 2 % bufferSize, readIdx := 0 })
    ∧ Posix.Read midPosix = some (0, true,
        { buffer := fun _ => 0, writeIdx := 1, readIdx := 1 % bufferSize }) :=
  ⟨(c10_frame_conditions midPosix midWindows 42).1, rfl, rfl⟩

end ShareMem
